import Mathlib

/-!
Verification of the recipe matching and ranking engine of
`streamlit_donut_app.py` (Legends Z-A donut recipe finder).

The embedding models the SQLite tables as association lists:
* `user_inventory (berry_name TEXT PRIMARY KEY, quantity INTEGER)` as
  `Inventory = List (String × Int)`;
* `recipe_items (recipe_id, berry_name, count)` as
  `RecipeItems = List (Nat × String × Int)`;
* `recipes` rows as the structure `RecipeRow` carrying the columns read by
  the Tab 3 search query and its WHERE / ORDER BY clauses.

Reads follow SQL semantics: a point read returns the first row whose key
matches (the primary key makes it unique in practice) and `IFNULL(·, 0)`
turns a missing row into 0; an `UPDATE ... WHERE berry_name = ?` rewrites
every row whose key matches and touches nothing else.
-/

/-- A row of `user_inventory`: `(berry_name, quantity)`. -/
abbrev Inventory := List (String × Int)

/-- A row of `recipe_items`: `(recipe_id, berry_name, count)`. -/
abbrev RecipeItems := List (Nat × String × Int)

/-- `IFNULL(ui.quantity, 0)`: the quantity stored for `name`, or 0 when no
row has that key.  Embeds the point read used by the craftability subquery
and by `SELECT berry_name, quantity FROM user_inventory`. -/
def getQty : Inventory → String → Int
  | [], _ => 0
  | p :: rest, name => if p.1 = name then p.2 else getQty rest name

/-- Whether `user_inventory` has a row keyed by `name`. -/
def hasKey : Inventory → String → Bool
  | [], _ => false
  | p :: rest, name => decide (p.1 = name) || hasKey rest name

/-- `UPDATE user_inventory SET quantity = MAX(0, quantity - amount)
WHERE berry_name = name` — the deduction step inside `cook_recipe`
(src line 97). -/
def decrement : Inventory → String → Int → Inventory
  | [], _, _ => []
  | p :: rest, name, amount =>
    (if p.1 = name then (p.1, max 0 (p.2 - amount)) else p) ::
      decrement rest name amount

/-- `UPDATE user_inventory SET quantity = q WHERE berry_name = name` — the
per-row write of `save_inventory` (src lines 82-83).  A name with no
existing row is ignored: `UPDATE` never inserts. -/
def setQty : Inventory → String → Int → Inventory
  | [], _, _ => []
  | p :: rest, name, q => (if p.1 = name then (p.1, q) else p) :: setQty rest name q

/-- `save_inventory` (src lines 77-87): `executemany` of the quantity
update over the rows of the supplied data frame. -/
def save_inventory (inv : Inventory) (df : List (String × Int)) : Inventory :=
  df.foldl (fun acc row => setQty acc row.1 row.2) inv

/-- The seeding loop of `init_db` (src lines 37-42): starting from an
empty table, `INSERT OR IGNORE ... VALUES (?, 0)` for each distinct berry
name found in `recipe_items`. -/
def init_inventory (berries : List String) : Inventory :=
  berries.foldl (fun acc b => if hasKey acc b then acc else acc ++ [(b, 0)]) []

/-- `SELECT berry_name, count FROM recipe_items WHERE recipe_id = rid`
(src line 93). -/
def selectItems (items : RecipeItems) (rid : Nat) : List (String × Int) :=
  (items.filter fun t => decide (t.1 = rid)).map (·.2)

/-- Errors the spec's cook transaction can surface.  The source function
`cook_recipe` raises nothing, so the embedding always returns `.ok`. -/
inductive DbError where
  | notFound
  deriving DecidableEq, Repr

/-- `cook_recipe` (src lines 89-100): fetch the recipe's item rows and run
the floor-at-zero decrement for each.  An id with no `recipe_items` rows
makes the loop body run zero times; no error is raised. -/
def cook_recipe (items : RecipeItems) (inv : Inventory) (rid : Nat) :
    Except DbError Inventory :=
  Except.ok ((selectItems items rid).foldl
    (fun acc p => decrement acc p.1 p.2) inv)

/-- A row of `recipes` restricted to the columns the Tab 3 query touches:
the selected columns, the flavor columns usable in the WHERE clause, and
the secondary-stat columns. -/
structure RecipeRow where
  id : Nat
  stars : Int
  final_calories : Int
  final_boost : Int
  num_berries : Int
  sweet : Int
  spicy : Int
  sour : Int
  bitter : Int
  fresh : Int
  flavor_sum : Int
  deriving DecidableEq, Repr

/-- `r` is craftable: the `NOT EXISTS` subquery of the Tab 3 search
(src lines 286-290) — no `recipe_items` row of this recipe has
`count > IFNULL(quantity, 0)`. -/
def craftable (items : RecipeItems) (inv : Inventory) (rid : Nat) : Bool :=
  !(items.any fun t => decide (t.1 = rid) && decide (getQty inv t.2.1 < t.2.2))

/-- The five flavor columns offered by the Tab 2 flavor sliders. -/
inductive FlavorAttr where
  | sweet | spicy | sour | bitter | fresh
  deriving DecidableEq, Repr

/-- The four secondary-stat columns offered by the Tab 2 radio buttons. -/
inductive StatAttr where
  | stars | flavor_sum | final_boost | final_calories
  deriving DecidableEq, Repr

/-- Column read for a flavor attribute. -/
def flavorVal (r : RecipeRow) : FlavorAttr → Int
  | .sweet => r.sweet
  | .spicy => r.spicy
  | .sour => r.sour
  | .bitter => r.bitter
  | .fresh => r.fresh

/-- Column read for a secondary-stat attribute. -/
def statVal (r : RecipeRow) : StatAttr → Int
  | .stars => r.stars
  | .flavor_sum => r.flavor_sum
  | .final_boost => r.final_boost
  | .final_calories => r.final_calories

/-- The `st.session_state.filters` dict (src lines 249-253): the entered
flavor ranges, the optional secondary-stat constraint, and the ranking
flag `prioritize_min_berries`. -/
structure Filters where
  flavors : List (FlavorAttr × Int × Int)
  stats : Option (StatAttr × Int × Int)
  prio : Bool
  deriving DecidableEq, Repr

/-- The WHERE clause built at src lines 266-276: one
`r.col BETWEEN min AND max` conjunct per entered flavor range, plus one
for the secondary stat when present.  SQL `BETWEEN` is inclusive on both
ends. -/
def passesFilters (f : Filters) (r : RecipeRow) : Bool :=
  (f.flavors.all fun t =>
    decide (t.2.1 ≤ flavorVal r t.1) && decide (flavorVal r t.1 ≤ t.2.2)) &&
  (match f.stats with
   | none => true
   | some (s, lo, hi) =>
     decide (lo ≤ statVal r s) && decide (statVal r s ≤ hi))

/-- The ORDER BY comparison (src lines 278-281) as a boolean total
preorder: `a` may come no later than `b`.
`prio = true`: `num_berries ASC, final_calories DESC`;
`prio = false`: `final_calories DESC, stars DESC`. -/
def searchOrderLE (prio : Bool) (a b : RecipeRow) : Bool :=
  if prio then
    decide (a.num_berries < b.num_berries) ||
      (decide (a.num_berries = b.num_berries) &&
        decide (b.final_calories ≤ a.final_calories))
  else
    decide (b.final_calories < a.final_calories) ||
      (decide (a.final_calories = b.final_calories) &&
        decide (b.stars ≤ a.stars))

/-- The rows satisfying the query's WHERE clause: craftable and inside
every entered range. -/
def qualifying (recipes : List RecipeRow) (items : RecipeItems)
    (inv : Inventory) (f : Filters) : List RecipeRow :=
  recipes.filter fun r => craftable items inv r.id && passesFilters f r

/-- The full Tab 3 search query (src lines 283-296): filter, ORDER BY,
then `LIMIT 50`.  The ORDER BY is modelled by a stable sort under
`searchOrderLE`; the limit is applied after sorting, as in SQL. -/
def runSearch (recipes : List RecipeRow) (items : RecipeItems)
    (inv : Inventory) (f : Filters) : List RecipeRow :=
  ((qualifying recipes items inv f).mergeSort (searchOrderLE f.prio)).take 50

/-- The names of the rows of an inventory, in row order. -/
def keys (inv : Inventory) : List String := inv.map (·.1)

/-- The spec's inventory invariant: every stored quantity is ≥ 0. -/
def invNonneg (inv : Inventory) : Prop := ∀ p ∈ inv, 0 ≤ p.2


/-! ### Basic lemmas about the inventory table operations -/

theorem getQty_eq_zero_of_not_hasKey (inv : Inventory) (n : String)
    (h : hasKey inv n = false) : getQty inv n = 0 := by
  induction inv with
  | nil => rfl
  | cons p rest ih =>
    simp only [hasKey, Bool.or_eq_false_iff, decide_eq_false_iff_not] at h
    simp [getQty, h.1, ih h.2]

theorem decrement_getQty_ne (inv : Inventory) (n m : String) (a : Int)
    (h : m ≠ n) : getQty (decrement inv n a) m = getQty inv m := by
  induction inv with
  | nil => rfl
  | cons p rest ih =>
    by_cases hpn : p.1 = n
    · have hpm : ¬ p.1 = m := fun hm => h (hm ▸ hpn)
      simp [decrement, getQty, hpn, hpm, ih, h.symm]
    · by_cases hpm : p.1 = m
      · simp [decrement, getQty, hpn, hpm, h]
      · simp [decrement, getQty, hpn, hpm, ih]

theorem decrement_getQty_self (inv : Inventory) (n : String) (a : Int)
    (h : hasKey inv n = true) :
    getQty (decrement inv n a) n = max 0 (getQty inv n - a) := by
  induction inv with
  | nil => simp [hasKey] at h
  | cons p rest ih =>
    by_cases hpn : p.1 = n
    · simp [decrement, getQty, hpn]
    · have h' : hasKey rest n = true := by
        simp only [hasKey, Bool.or_eq_true, decide_eq_true_eq] at h
        exact h.resolve_left hpn
      simp [decrement, getQty, hpn, ih h']

theorem decrement_not_hasKey (inv : Inventory) (n : String) (a : Int)
    (h : hasKey inv n = false) : decrement inv n a = inv := by
  induction inv with
  | nil => rfl
  | cons p rest ih =>
    simp only [hasKey, Bool.or_eq_false_iff, decide_eq_false_iff_not] at h
    simp [decrement, h.1, ih h.2]

theorem keys_decrement (inv : Inventory) (n : String) (a : Int) :
    keys (decrement inv n a) = keys inv := by
  induction inv with
  | nil => rfl
  | cons p rest ih =>
    simp only [keys, List.map_cons] at ih ⊢
    by_cases hpn : p.1 = n <;> simp [decrement, hpn, ih]

theorem foldl_decrement_getQty_notMem :
    ∀ (L : List (String × Int)) (inv : Inventory) (m : String),
      (∀ p ∈ L, p.1 ≠ m) →
      getQty (L.foldl (fun acc p => decrement acc p.1 p.2) inv) m = getQty inv m
  | [], _, _, _ => rfl
  | q :: rest, inv, m, h => by
    rw [List.foldl_cons,
      foldl_decrement_getQty_notMem rest _ m
        (fun p hp => h p (List.mem_cons_of_mem _ hp)),
      decrement_getQty_ne _ _ _ _ (h q (List.mem_cons_self q rest)).symm]

theorem foldl_decrement_getQty_mem :
    ∀ (L : List (String × Int)) (inv : Inventory),
      (L.map (·.1)).Nodup → ∀ n c, (n, c) ∈ L → 0 ≤ c →
      getQty (L.foldl (fun acc p => decrement acc p.1 p.2) inv) n
        = max 0 (getQty inv n - c)
  | [], _, _, _, _, hmem, _ => absurd hmem (List.not_mem_nil _)
  | q :: rest, inv, hnd, n, c, hmem, hc => by
    rw [List.map_cons, List.nodup_cons] at hnd
    rw [List.foldl_cons]
    rcases List.mem_cons.mp hmem with hq | hrest
    · have hq' : q = (n, c) := hq.symm
      subst hq'
      have hkeys : ∀ p ∈ rest, p.1 ≠ n := by
        intro p hp hc'
        exact hnd.1 (hc' ▸ List.mem_map_of_mem (·.1) hp)
      rw [foldl_decrement_getQty_notMem rest _ n hkeys]
      by_cases hk : hasKey inv n = true
      · exact decrement_getQty_self inv n c hk
      · have hk' : hasKey inv n = false := by simpa using hk
        rw [decrement_not_hasKey inv n c hk',
          getQty_eq_zero_of_not_hasKey inv n hk']
        omega
    · have hn : q.1 ≠ n := by
        intro hqn
        exact hnd.1 (hqn ▸ List.mem_map_of_mem (·.1) hrest)
      rw [foldl_decrement_getQty_mem rest _ hnd.2 n c hrest hc,
        decrement_getQty_ne _ _ _ _ hn.symm]

theorem keys_foldl_decrement :
    ∀ (L : List (String × Int)) (inv : Inventory),
      keys (L.foldl (fun acc p => decrement acc p.1 p.2) inv) = keys inv
  | [], _ => rfl
  | q :: rest, inv => by
    rw [List.foldl_cons, keys_foldl_decrement rest _, keys_decrement]

/-- The craftability subquery, rephrased over the recipe's own item rows:
no row demands more than the inventory read. -/
theorem craftable_eq_all (items : RecipeItems) (inv : Inventory) (rid : Nat) :
    craftable items inv rid = true ↔
      ∀ p ∈ selectItems items rid, p.2 ≤ getQty inv p.1 := by
  simp only [craftable, Bool.not_eq_true', List.any_eq_false, Bool.and_eq_true,
    decide_eq_true_eq, not_and, not_lt, selectItems, List.mem_map,
    List.mem_filter, forall_exists_index, and_imp]
  constructor
  · rintro h p t ht hrid rfl
    exact h t ht hrid
  · intro h t ht hrid
    exact h t.2 t ht hrid rfl

/-! ### Claim theorems -/

/-- C1: a recipe is in the craftable set iff every `(ingredient, count)`
row of its ingredient list is covered by the inventory read (which is 0
for a name with no inventory row); a recipe with no ingredient rows is
craftable under every inventory. -/
theorem craftable_characterization (items : RecipeItems) (inv : Inventory)
    (rid : Nat) :
    (craftable items inv rid = true ↔
      ∀ n c, (n, c) ∈ selectItems items rid → c ≤ getQty inv n) ∧
    (selectItems items rid = [] → craftable items inv rid = true) := by
  constructor
  · rw [craftable_eq_all]
    constructor
    · intro h n c hm
      exact h (n, c) hm
    · intro h p hm
      exact h p.1 p.2 hm
  · intro hnil
    rw [craftable_eq_all, hnil]
    intro p hp
    cases hp

/-- Witness for C1 at the spec's example: `{Apple:2, Pear:1}` against
`{Apple:5, Pear:0}` is not craftable, and a recipe with no items is. -/
theorem craftable_characterization_witness :
    (craftable [(1, "Apple", 2), (1, "Pear", 1)] [("Apple", 5), ("Pear", 0)] 1
        = true ↔
      ∀ n c, (n, c) ∈ selectItems [(1, "Apple", 2), (1, "Pear", 1)] 1 →
        c ≤ getQty [("Apple", 5), ("Pear", 0)] n) ∧
    (selectItems [(1, "Apple", 2), (1, "Pear", 1)] 2 = [] →
      craftable [(1, "Apple", 2), (1, "Pear", 1)] [("Apple", 5), ("Pear", 0)] 2
        = true) :=
  ⟨(craftable_characterization [(1, "Apple", 2), (1, "Pear", 1)]
      [("Apple", 5), ("Pear", 0)] 1).1,
   (craftable_characterization [(1, "Apple", 2), (1, "Pear", 1)]
      [("Apple", 5), ("Pear", 0)] 2).2⟩

/-- C3: for a name with an inventory row (every ingredient referenced by
the catalog is seeded), the decrement write stores `max 0 (q - d)`; the
result is never negative, however large `d` is. -/
theorem decrement_floor (inv : Inventory) (n : String) (d : Int)
    (h : hasKey inv n = true) :
    getQty (decrement inv n d) n = max 0 (getQty inv n - d) ∧
    0 ≤ getQty (decrement inv n d) n := by
  have h1 := decrement_getQty_self inv n d h
  exact ⟨h1, by rw [h1]; exact le_max_left 0 _⟩

/-- Witness for C3: 3 Apples minus 99 yields `max 0 (3 - 99) = 0`. -/
theorem decrement_floor_witness :
    hasKey [("Apple", 3)] "Apple" = true ∧
    (getQty (decrement [("Apple", 3)] "Apple" 99) "Apple"
        = max 0 (getQty [("Apple", 3)] "Apple" - 99) ∧
      0 ≤ getQty (decrement [("Apple", 3)] "Apple" 99) "Apple") :=
  ⟨by decide, decrement_floor [("Apple", 3)] "Apple" 99 (by decide)⟩

/-- C8: craftability is monotone in the inventory, pointwise on the
quantity read for every name. -/
theorem craftable_monotone (items : RecipeItems) (rid : Nat)
    (inv inv' : Inventory)
    (hmono : ∀ n, getQty inv n ≤ getQty inv' n)
    (h : craftable items inv rid = true) :
    craftable items inv' rid = true := by
  rw [craftable_eq_all] at h ⊢
  intro p hp
  exact le_trans (h p hp) (hmono p.1)

/-- Witness for C8: `{Apple:2}` craftable from `{Apple:2}`, and
`{Apple:3}` dominates `{Apple:2}` pointwise. -/
theorem craftable_monotone_witness :
    (∀ n, getQty [("Apple", 2)] n ≤ getQty [("Apple", 3)] n) ∧
    craftable [(1, "Apple", 2)] [("Apple", 2)] 1 = true ∧
    craftable [(1, "Apple", 2)] [("Apple", 3)] 1 = true := by
  have hmono : ∀ n, getQty [("Apple", 2)] n ≤ getQty [("Apple", 3)] n := by
    intro n
    by_cases hn : "Apple" = n <;> simp [getQty, hn]
  have hc : craftable [(1, "Apple", 2)] [("Apple", 2)] 1 = true := by decide
  exact ⟨hmono, hc, craftable_monotone [(1, "Apple", 2)] 1 _ _ hmono hc⟩

/-- C2: after `cook_recipe` finishes, each ingredient row `(n, c)` of the
recipe holds `max 0 (old - c)` and every other name's read is unchanged.
The recipe's item rows carry distinct names and positive counts, per the
catalog's data model. -/
theorem cook_consistency (recipes : List RecipeRow) (items : RecipeItems)
    (inv : Inventory) (r : RecipeRow) (hr : r ∈ recipes)
    (hnd : ((selectItems items r.id).map (·.1)).Nodup)
    (hpos : ∀ p ∈ selectItems items r.id, 0 ≤ p.2)
    (inv' : Inventory)
    (hcook : cook_recipe items inv r.id = Except.ok inv') :
    (∀ n c, (n, c) ∈ selectItems items r.id →
      getQty inv' n = max 0 (getQty inv n - c)) ∧
    (∀ m, (∀ c, (m, c) ∉ selectItems items r.id) →
      getQty inv' m = getQty inv m) := by
  have hinv' : (selectItems items r.id).foldl
      (fun acc p => decrement acc p.1 p.2) inv = inv' := by
    simpa [cook_recipe] using hcook
  subst hinv'
  constructor
  · intro n c hmem
    exact foldl_decrement_getQty_mem _ _ hnd n c hmem (hpos _ hmem)
  · intro m hm
    refine foldl_decrement_getQty_notMem _ _ m ?_
    intro p hp hpm
    exact hm p.2 (hpm ▸ hp)

/-- Witness for C2 at the spec's example: cooking `{Apple:2, Pear:1}`
from `{Apple:5, Pear:0}` leaves `{Apple:3, Pear:0}`. -/
theorem cook_consistency_witness :
    (⟨1, 3, 100, 10, 3, 0, 0, 0, 0, 0, 0⟩ : RecipeRow) ∈
        [(⟨1, 3, 100, 10, 3, 0, 0, 0, 0, 0, 0⟩ : RecipeRow)] ∧
    ((selectItems [(1, "Apple", 2), (1, "Pear", 1)]
        (⟨1, 3, 100, 10, 3, 0, 0, 0, 0, 0, 0⟩ : RecipeRow).id).map (·.1)).Nodup ∧
    (∀ p ∈ selectItems [(1, "Apple", 2), (1, "Pear", 1)]
        (⟨1, 3, 100, 10, 3, 0, 0, 0, 0, 0, 0⟩ : RecipeRow).id, 0 ≤ p.2) ∧
    cook_recipe [(1, "Apple", 2), (1, "Pear", 1)] [("Apple", 5), ("Pear", 0)]
        (⟨1, 3, 100, 10, 3, 0, 0, 0, 0, 0, 0⟩ : RecipeRow).id
      = Except.ok [("Apple", 3), ("Pear", 0)] ∧
    ((∀ n c, (n, c) ∈ selectItems [(1, "Apple", 2), (1, "Pear", 1)]
          (⟨1, 3, 100, 10, 3, 0, 0, 0, 0, 0, 0⟩ : RecipeRow).id →
        getQty [("Apple", 3), ("Pear", 0)] n
          = max 0 (getQty [("Apple", 5), ("Pear", 0)] n - c)) ∧
     (∀ m, (∀ c, (m, c) ∉ selectItems [(1, "Apple", 2), (1, "Pear", 1)]
          (⟨1, 3, 100, 10, 3, 0, 0, 0, 0, 0, 0⟩ : RecipeRow).id) →
        getQty [("Apple", 3), ("Pear", 0)] m
          = getQty [("Apple", 5), ("Pear", 0)] m)) :=
  ⟨List.mem_cons_self _ _, by decide, by decide, rfl,
   cook_consistency [(⟨1, 3, 100, 10, 3, 0, 0, 0, 0, 0, 0⟩ : RecipeRow)]
     [(1, "Apple", 2), (1, "Pear", 1)] [("Apple", 5), ("Pear", 0)]
     (⟨1, 3, 100, 10, 3, 0, 0, 0, 0, 0, 0⟩ : RecipeRow)
     (List.mem_cons_self _ _) (by decide) (by decide)
     [("Apple", 3), ("Pear", 0)] rfl⟩

/-- C6 counterexample: cooking id 2 against a catalog whose only item
rows belong to id 1 does not fail — `cook_recipe` raises nothing and
returns the unchanged inventory as a success. -/
theorem cook_unknown_counterexample :
    cook_recipe [(1, "Apple", 2)] [("Apple", 5)] 2
      = Except.ok [("Apple", 5)] := rfl

/-- C6 (amended): cooking an id with no `recipe_items` rows is a silent
no-op — the operation succeeds with every quantity unchanged; no
`NotFoundError` (or any error) is raised. -/
theorem cook_unknown_noop (items : RecipeItems) (inv : Inventory) (rid : Nat)
    (h : ∀ t ∈ items, t.1 ≠ rid) :
    cook_recipe items inv rid = Except.ok inv := by
  have hsel : selectItems items rid = [] := by
    simp only [selectItems, List.map_eq_nil_iff, List.filter_eq_nil_iff,
      decide_eq_true_eq]
    exact h
  simp [cook_recipe, hsel]

/-- Witness for C6's amended claim: id 2 has no item rows in a catalog
for id 1. -/
theorem cook_unknown_noop_witness :
    cook_recipe [(1, "Apple", 2)] [("Apple", 5), ("Pear", 7)] 2
      = Except.ok [("Apple", 5), ("Pear", 7)] :=
  cook_unknown_noop [(1, "Apple", 2)] [("Apple", 5), ("Pear", 7)] 2
    (by decide)

/-- C10: decrementing a name with no inventory row changes nothing, and
neither decrement nor any cook call changes the set (or order) of
inventory keys. -/
theorem decrement_missing_noop (inv : Inventory) (n : String) (a : Int)
    (items : RecipeItems) (rid : Nat) :
    (hasKey inv n = false → decrement inv n a = inv) ∧
    keys (decrement inv n a) = keys inv ∧
    (∀ inv', cook_recipe items inv rid = Except.ok inv' →
      keys inv' = keys inv) := by
  refine ⟨decrement_not_hasKey inv n a, keys_decrement inv n a, ?_⟩
  intro inv' h
  have hinv' : (selectItems items rid).foldl
      (fun acc p => decrement acc p.1 p.2) inv = inv' := by
    simpa [cook_recipe] using h
  rw [← hinv', keys_foldl_decrement]

/-- Witness for C10: decrementing the unknown name "Pear" leaves the
store untouched, and cooking preserves the key list. -/
theorem decrement_missing_noop_witness :
    decrement [("Apple", 3)] "Pear" 2 = [("Apple", 3)] ∧
    keys (decrement [("Apple", 3)] "Pear" 2) = keys [("Apple", 3)] ∧
    keys [("Apple", 1)] = keys [("Apple", 3)] :=
  have h := decrement_missing_noop [("Apple", 3)] "Pear" 2 [(1, "Apple", 2)] 1
  ⟨h.1 (by decide), h.2.1, h.2.2 [("Apple", 1)] rfl⟩

/-! ### Non-negativity of the inventory under each operation -/

theorem decrement_eq_map (inv : Inventory) (n : String) (a : Int) :
    decrement inv n a
      = inv.map (fun p => if p.1 = n then (p.1, max 0 (p.2 - a)) else p) := by
  induction inv with
  | nil => rfl
  | cons p rest ih => simp [decrement, ih]

theorem setQty_eq_map (inv : Inventory) (n : String) (q : Int) :
    setQty inv n q = inv.map (fun p => if p.1 = n then (p.1, q) else p) := by
  induction inv with
  | nil => rfl
  | cons p rest ih => simp [setQty, ih]

theorem invNonneg_decrement (inv : Inventory) (n : String) (a : Int)
    (h : invNonneg inv) : invNonneg (decrement inv n a) := by
  intro q hq
  rw [decrement_eq_map] at hq
  obtain ⟨p, hp, rfl⟩ := List.mem_map.mp hq
  by_cases hpn : p.1 = n
  · simpa [hpn] using le_max_left 0 (p.2 - a)
  · simpa [hpn] using h p hp

theorem invNonneg_setQty (inv : Inventory) (n : String) (q : Int)
    (hq : 0 ≤ q) (h : invNonneg inv) : invNonneg (setQty inv n q) := by
  intro p' hp'
  rw [setQty_eq_map] at hp'
  obtain ⟨p, hp, rfl⟩ := List.mem_map.mp hp'
  by_cases hpn : p.1 = n
  · simpa [hpn] using hq
  · simpa [hpn] using h p hp

theorem invNonneg_foldl_decrement :
    ∀ (L : List (String × Int)) (inv : Inventory), invNonneg inv →
      invNonneg (L.foldl (fun acc p => decrement acc p.1 p.2) inv)
  | [], _, h => h
  | q :: rest, inv, h => by
    rw [List.foldl_cons]
    exact invNonneg_foldl_decrement rest _ (invNonneg_decrement _ _ _ h)

theorem invNonneg_save :
    ∀ (df : List (String × Int)) (inv : Inventory),
      (∀ p ∈ df, 0 ≤ p.2) → invNonneg inv →
      invNonneg (save_inventory inv df)
  | [], _, _, h => h
  | q :: rest, inv, hdf, h => by
    have hrec := invNonneg_save rest (setQty inv q.1 q.2)
      (fun p hp => hdf p (List.mem_cons_of_mem _ hp))
      (invNonneg_setQty inv q.1 q.2 (hdf q (List.mem_cons_self _ _)) h)
    simpa [save_inventory, List.foldl_cons] using hrec

theorem invNonneg_init_aux :
    ∀ (bs : List String) (acc : Inventory), invNonneg acc →
      invNonneg (bs.foldl
        (fun acc b => if hasKey acc b then acc else acc ++ [(b, 0)]) acc)
  | [], _, h => h
  | b :: rest, acc, h => by
    rw [List.foldl_cons]
    refine invNonneg_init_aux rest _ ?_
    by_cases hk : hasKey acc b = true
    · simpa [hk] using h
    · simp only [hk, if_false]
      intro p hp
      rcases List.mem_append.mp hp with hp | hp
      · exact h p hp
      · simp only [List.mem_singleton] at hp
        simp [hp]

/-- C7 counterexample: importing a CSV row with a negative quantity for a
known berry is written through by `save_inventory` unchecked, breaking
the non-negativity invariant. -/
theorem inventory_nonneg_counterexample :
    invNonneg [("Apple", 3)] ∧
    ¬ invNonneg (save_inventory [("Apple", 3)] [("Apple", -5)]) := by
  constructor
  · intro p hp
    simp only [List.mem_singleton] at hp
    simp [hp]
  · intro h
    have h5 : (("Apple", (-5 : Int)))
        ∈ save_inventory [("Apple", 3)] [("Apple", -5)] := by decide
    have := h _ h5
    norm_num at this

/-- C7 (amended): seeding, the floor-at-zero decrement (hence every cook
call), and any save whose written quantities are all non-negative (the
data-editor path enforces `0 ≤ quantity ≤ 999`) preserve the invariant
that every stored quantity is ≥ 0; an import save is the one operation
that preserves it only under that condition on its input. -/
theorem inventory_nonneg_ops (berries : List String) (inv : Inventory)
    (items : RecipeItems) (rid : Nat) (n : String) (a : Int)
    (df : List (String × Int)) :
    invNonneg (init_inventory berries) ∧
    (invNonneg inv → invNonneg (decrement inv n a)) ∧
    (invNonneg inv → ∀ inv', cook_recipe items inv rid = Except.ok inv' →
      invNonneg inv') ∧
    ((∀ p ∈ df, 0 ≤ p.2) → invNonneg inv →
      invNonneg (save_inventory inv df)) := by
  refine ⟨invNonneg_init_aux berries [] (fun p hp => absurd hp (List.not_mem_nil p)),
    invNonneg_decrement inv n a, ?_, invNonneg_save df inv⟩
  intro h inv' hcook
  have hinv' : (selectItems items rid).foldl
      (fun acc p => decrement acc p.1 p.2) inv = inv' := by
    simpa [cook_recipe] using hcook
  rw [← hinv']
  exact invNonneg_foldl_decrement _ _ h

/-- Witness for C7's amended claim at concrete inputs: seeding two
berries, decrementing, cooking, and a non-negative save all keep
quantities ≥ 0. -/
theorem inventory_nonneg_ops_witness :
    invNonneg (init_inventory ["Apple", "Pear"]) ∧
    invNonneg (decrement [("Apple", 3)] "Apple" 99) ∧
    invNonneg [("Apple", 1)] ∧
    invNonneg (save_inventory [("Apple", 3)] [("Apple", 7)]) := by
  have h := inventory_nonneg_ops ["Apple", "Pear"] [("Apple", 3)]
    [(1, "Apple", 2)] 1 "Apple" 99 [("Apple", 7)]
  have hbase : invNonneg [("Apple", 3)] := by
    intro p hp
    simp only [List.mem_singleton] at hp
    simp [hp]
  refine ⟨h.1, h.2.1 hbase, ?_, h.2.2.2 ?_ hbase⟩
  · exact h.2.2.1 hbase [("Apple", 1)] rfl
  · intro p hp
    simp only [List.mem_singleton] at hp
    simp [hp]

/-- C4: a recipe passes the assembled WHERE clause iff its value for each
entered flavor range lies within the range, both bounds inclusive, and —
when a secondary stat constraint is present — its value for that stat
lies within its range inclusively; an attribute with no entered range
imposes no constraint, and a value equal to a bound passes. -/
theorem passesFilters_characterization (f : Filters) (r : RecipeRow) :
    passesFilters f r = true ↔
      ((∀ a lo hi, (a, lo, hi) ∈ f.flavors →
          lo ≤ flavorVal r a ∧ flavorVal r a ≤ hi) ∧
        ∀ s lo hi, f.stats = some (s, lo, hi) →
          lo ≤ statVal r s ∧ statVal r s ≤ hi) := by
  obtain ⟨fl, st, pr⟩ := f
  cases st with
  | none =>
    simp only [passesFilters, Bool.and_true, List.all_eq_true, Bool.and_eq_true,
      decide_eq_true_eq]
    constructor
    · intro h
      refine ⟨fun a lo hi hm => h (a, lo, hi) hm, ?_⟩
      intro s lo hi hs
      simp at hs
    · rintro ⟨h1, _⟩ t ht
      exact h1 t.1 t.2.1 t.2.2 ht
  | some t =>
    obtain ⟨s, lo, hi⟩ := t
    simp only [passesFilters, List.all_eq_true, Bool.and_eq_true,
      decide_eq_true_eq]
    constructor
    · rintro ⟨h1, h2⟩
      refine ⟨fun a lo' hi' hm => h1 (a, lo', hi') hm, ?_⟩
      intro s' lo' hi' heq
      cases heq
      exact h2
    · rintro ⟨h1, h2⟩
      exact ⟨fun t ht => h1 t.1 t.2.1 t.2.2 ht, h2 s lo hi rfl⟩

/-- Witness for C4 at a boundary input: sweet score exactly at the
range's max and stars exactly at the range's min. -/
theorem passesFilters_characterization_witness :
    passesFilters
        ⟨[(FlavorAttr.sweet, 420, 760)], some (StatAttr.stars, 3, 5), true⟩
        ⟨1, 3, 100, 10, 3, 760, 0, 0, 0, 0, 760⟩ = true ↔
      ((∀ a lo hi, (a, lo, hi) ∈
          (⟨[(FlavorAttr.sweet, 420, 760)], some (StatAttr.stars, 3, 5), true⟩
            : Filters).flavors →
          lo ≤ flavorVal ⟨1, 3, 100, 10, 3, 760, 0, 0, 0, 0, 760⟩ a ∧
            flavorVal ⟨1, 3, 100, 10, 3, 760, 0, 0, 0, 0, 760⟩ a ≤ hi) ∧
        ∀ s lo hi,
          (⟨[(FlavorAttr.sweet, 420, 760)], some (StatAttr.stars, 3, 5), true⟩
            : Filters).stats = some (s, lo, hi) →
          lo ≤ statVal ⟨1, 3, 100, 10, 3, 760, 0, 0, 0, 0, 760⟩ s ∧
            statVal ⟨1, 3, 100, 10, 3, 760, 0, 0, 0, 0, 760⟩ s ≤ hi) :=
  passesFilters_characterization
    ⟨[(FlavorAttr.sweet, 420, 760)], some (StatAttr.stars, 3, 5), true⟩
    ⟨1, 3, 100, 10, 3, 760, 0, 0, 0, 0, 760⟩

/-! ### Properties of the ORDER BY comparison -/

theorem searchOrderLE_total (prio : Bool) (a b : RecipeRow) :
    searchOrderLE prio a b || searchOrderLE prio b a := by
  cases prio <;> simp [searchOrderLE] <;> omega

theorem searchOrderLE_trans (prio : Bool) (a b c : RecipeRow) :
    searchOrderLE prio a b = true → searchOrderLE prio b c = true →
    searchOrderLE prio a c = true := by
  cases prio <;> simp [searchOrderLE] <;> omega

/-- C5: the search result is the craftable-and-filter-passing rows in the
order chosen by `prioritize_min_berries`, truncated only after sorting:
it has `min 50 k` entries (`k` = number of qualifying rows), is sorted by
the selected order, contains only qualifying rows, contains every
qualifying row when at most 50 qualify, and whenever a qualifying row is
cut off, every returned row precedes it in the order. -/
theorem search_ranking (recipes : List RecipeRow) (items : RecipeItems)
    (inv : Inventory) (f : Filters) :
    (runSearch recipes items inv f).length
        = min 50 (qualifying recipes items inv f).length ∧
    List.Pairwise (fun a b => searchOrderLE f.prio a b = true)
      (runSearch recipes items inv f) ∧
    (∀ s ∈ runSearch recipes items inv f,
      s ∈ recipes ∧ craftable items inv s.id = true ∧
        passesFilters f s = true) ∧
    (∀ r ∈ qualifying recipes items inv f,
      (qualifying recipes items inv f).length ≤ 50 →
      r ∈ runSearch recipes items inv f) ∧
    (∀ r ∈ qualifying recipes items inv f,
      r ∉ runSearch recipes items inv f →
      ∀ s ∈ runSearch recipes items inv f,
        searchOrderLE f.prio s r = true) := by
  have hsorted := List.sorted_mergeSort
    (fun a b c => searchOrderLE_trans f.prio a b c)
    (fun a b => searchOrderLE_total f.prio a b)
    (qualifying recipes items inv f)
  refine ⟨?_, ?_, ?_, ?_, ?_⟩
  · simp [runSearch]
  · exact List.Pairwise.sublist (List.take_sublist 50 _) hsorted
  · intro s hs
    have hs' : s ∈ qualifying recipes items inv f :=
      List.mem_mergeSort.mp ((List.take_sublist 50 _).subset hs)
    rw [qualifying, List.mem_filter, Bool.and_eq_true] at hs'
    exact ⟨hs'.1, hs'.2.1, hs'.2.2⟩
  · intro r hrq hlen
    rw [runSearch, List.take_of_length_le (by simpa using hlen)]
    exact List.mem_mergeSort.mpr hrq
  · intro r hrq hrnot s hs
    rw [runSearch] at hrnot hs
    have hrL : r ∈ (qualifying recipes items inv f).mergeSort
        (searchOrderLE f.prio) := List.mem_mergeSort.mpr hrq
    have hsplit := List.take_append_drop 50
      ((qualifying recipes items inv f).mergeSort (searchOrderLE f.prio))
    have hpw : List.Pairwise (fun a b => searchOrderLE f.prio a b = true)
        (((qualifying recipes items inv f).mergeSort
            (searchOrderLE f.prio)).take 50 ++
          ((qualifying recipes items inv f).mergeSort
            (searchOrderLE f.prio)).drop 50) := by
      rw [hsplit]; exact hsorted
    have hrdrop : r ∈ ((qualifying recipes items inv f).mergeSort
        (searchOrderLE f.prio)).drop 50 := by
      rcases List.mem_append.mp (by rw [hsplit]; exact hrL) with h1 | h2
      · exact absurd h1 hrnot
      · exact h2
    exact (List.pairwise_append.mp hpw).2.2 s hs r hrdrop

/-- Witness for C5 on a concrete catalog: the inner statements applied to
a one-recipe search. -/
theorem search_ranking_witness :
    (runSearch [⟨1, 3, 100, 10, 3, 0, 0, 0, 0, 0, 0⟩] [] []
        ⟨[], none, true⟩).length
      = min 50 (qualifying [⟨1, 3, 100, 10, 3, 0, 0, 0, 0, 0, 0⟩] [] []
        ⟨[], none, true⟩).length ∧
    List.Pairwise (fun a b => searchOrderLE true a b = true)
      (runSearch [⟨1, 3, 100, 10, 3, 0, 0, 0, 0, 0, 0⟩] [] []
        ⟨[], none, true⟩) ∧
    (∀ s ∈ runSearch [⟨1, 3, 100, 10, 3, 0, 0, 0, 0, 0, 0⟩] [] []
        ⟨[], none, true⟩,
      s ∈ [(⟨1, 3, 100, 10, 3, 0, 0, 0, 0, 0, 0⟩ : RecipeRow)] ∧
        craftable [] [] s.id = true ∧
        passesFilters ⟨[], none, true⟩ s = true) ∧
    (∀ r ∈ qualifying [⟨1, 3, 100, 10, 3, 0, 0, 0, 0, 0, 0⟩] [] []
        ⟨[], none, true⟩,
      (qualifying [⟨1, 3, 100, 10, 3, 0, 0, 0, 0, 0, 0⟩] [] []
          ⟨[], none, true⟩).length ≤ 50 →
      r ∈ runSearch [⟨1, 3, 100, 10, 3, 0, 0, 0, 0, 0, 0⟩] [] []
        ⟨[], none, true⟩) ∧
    (∀ r ∈ qualifying [⟨1, 3, 100, 10, 3, 0, 0, 0, 0, 0, 0⟩] [] []
        ⟨[], none, true⟩,
      r ∉ runSearch [⟨1, 3, 100, 10, 3, 0, 0, 0, 0, 0, 0⟩] [] []
        ⟨[], none, true⟩ →
      ∀ s ∈ runSearch [⟨1, 3, 100, 10, 3, 0, 0, 0, 0, 0, 0⟩] [] []
        ⟨[], none, true⟩,
        searchOrderLE true s r = true) :=
  search_ranking [⟨1, 3, 100, 10, 3, 0, 0, 0, 0, 0, 0⟩] [] [] ⟨[], none, true⟩

/-- C9: the search is a function of the catalog, the item table, the
inventory and the filter spec alone — identical inputs give identical
ordered results, ties included. -/
theorem search_deterministic (recipes recipes' : List RecipeRow)
    (items items' : RecipeItems) (inv inv' : Inventory) (f f' : Filters)
    (h1 : recipes = recipes') (h2 : items = items') (h3 : inv = inv')
    (h4 : f = f') :
    runSearch recipes items inv f = runSearch recipes' items' inv' f' := by
  rw [h1, h2, h3, h4]

/-- Witness for C9: re-running a concrete search gives the same list. -/
theorem search_deterministic_witness :
    runSearch [⟨1, 3, 100, 10, 3, 0, 0, 0, 0, 0, 0⟩] [(1, "Apple", 2)]
        [("Apple", 5)] ⟨[], none, true⟩
      = runSearch [⟨1, 3, 100, 10, 3, 0, 0, 0, 0, 0, 0⟩] [(1, "Apple", 2)]
        [("Apple", 5)] ⟨[], none, true⟩ :=
  search_deterministic _ _ _ _ _ _ _ _ rfl rfl rfl rfl
